import Mathlib

/-!
pwnedFinder: a verification development

A shallow embedding of `main.go` (pwnedFinder-0.01) and theorems about it.

* Go `string`s are embedded as Lean `String`s (`len(s)` is the UTF-8 byte size).
* `fmt.Sprintf` with `%s` and `%d` verbs is embedded as concatenation, `%d` of a
  non-negative `int` being the decimal numeral given by `toString`.
* A slice is embedded as a `List`; the `nil` slice and the empty slice are both `[]`.
* Functions that perform I/O thread an explicit `Trace` (requests sent, lines printed)
  and read the outside world from an `Env` (outcome of each HTTP exchange and of the
  library parsers).  A Go panic and a `log.Fatal` exit are explicit outcomes.
* The library calls the program makes (net/url escaping, goquery and cascadia selection on a
  parsed HTML tree) are embedded after the behaviour of those libraries; their definitions
  are marked `Library`.
-/

namespace PwnedFinder

/-- Go's `string` type. -/
abbrev string := String

/-! ## Constants -/

def VERSION : string := "pwnedFinder-0.01"
def HibpBreachedApi : string := "https://haveibeenpwned.com/api/breachedaccount/"
def DatabasesToday : string := "https://www.databases.today/search-nojs.php"

/-! ## HIBPResponse -/

structure HIBPResponse where
  Name : string
  Title : string
  DumpURL : string
  IsVerified : Bool
deriving DecidableEq, Repr

def HIBPResponse.isDownloadable (data : HIBPResponse) : string :=
  if data.DumpURL.utf8ByteSize > 0 then "yes" else "no"

def HIBPResponse.isVerified (data : HIBPResponse) : string :=
  if data.IsVerified then "yes" else "no"

def HIBPResponse.String (data : HIBPResponse) : string :=
  let dumpString := "\t\tShort name: " ++ data.Name ++ "\n\t\tLong name: " ++ data.Title ++ "\n"
  let dumpString := dumpString ++
    ("\t\tVerified: " ++ data.isVerified ++ "\n\t\tDownloadable: " ++ data.isDownloadable ++ "\n")
  if data.DumpURL.utf8ByteSize > 0 then
    dumpString ++ ("\t\tURL: " ++ data.DumpURL ++ "\n")
  else
    dumpString

def HIBPResponse.addDumpURL (data : HIBPResponse) (dUrl : string) : HIBPResponse :=
  { data with DumpURL := dUrl }

/-! ## PwnedTarget -/

structure PwnedTarget where
  Credentials : string
  DumpsFound : List HIBPResponse
deriving DecidableEq, Repr

/-- The `for idx, dump := range data.DumpsFound` loop of `PwnedTarget.String`: the state is
the string built so far together with the loop index. -/
def PwnedTarget.String.loop (summaryString : string) (dumps : List HIBPResponse) : string × Nat :=
  dumps.foldl
    (fun (st : string × Nat) dump =>
      (st.1 ++ ("\tDump report #" ++ toString st.2 ++ "\n") ++ dump.String, st.2 + 1))
    (summaryString, 0)

def PwnedTarget.String (data : PwnedTarget) : string :=
  if data.DumpsFound.length < 1 then
    "Report for " ++ data.Credentials ++ ": \n\tResults: Not breached."
  else
    let summaryString := "Report for " ++ data.Credentials
      ++ ": \n\tResults: Breached. \n\tFound " ++ toString data.DumpsFound.length ++ " dumps.\n"
    (PwnedTarget.String.loop summaryString data.DumpsFound).1

/-! ## Vocabulary for statements about reports -/

/-- The lines of a text: the pieces between newline characters (as `strings.Split(s, "\n")`). -/
def splitLines : List Char → List (List Char)
  | [] => [[]]
  | c :: cs =>
    if c = '\n' then [] :: splitLines cs
    else
      match splitLines cs with
      | [] => [[c]]
      | l :: ls => (c :: l) :: ls

/-- The lines of a report. -/
def reportLines (report : string) : List (List Char) := splitLines report.data

/-- A block-header line: a line that begins with `\tDump report #`. -/
def isBlockHeader (line : List Char) : Bool := "\tDump report #".data.isPrefixOf line

/-- A line showing a URL: a line that begins with `\t\tURL: `. -/
def isURLLine (line : List Char) : Bool := "\t\tURL: ".data.isPrefixOf line

/-- The line `\t\tDownloadable: yes`. -/
def isDownloadableYes (line : List Char) : Bool := line == "\t\tDownloadable: yes".data

/-- Number of (possibly overlapping) occurrences of `pat` as a substring of `s`. -/
def countOcc (pat : List Char) : List Char → Nat
  | [] => if pat.isEmpty then 1 else 0
  | c :: cs => (if pat.isPrefixOf (c :: cs) then 1 else 0) + countOcc pat cs

/-! ## Vocabulary for counting lines -/

/-- Put a character in front of the first line. -/
def consHead (c : Char) : List (List Char) → List (List Char)
  | [] => [[c]]
  | l :: ls => (c :: l) :: ls

/-- Put a newline-free text in front of the first line. -/
def appendHead (a : List Char) : List (List Char) → List (List Char)
  | [] => [a]
  | l :: ls => (a ++ l) :: ls

/-- No newline character occurs in the string. -/
def NoNewline (s : string) : Prop := '\n' ∉ s.data

instance (s : string) : Decidable (NoNewline s) := by unfold NoNewline; infer_instance

/-- Counts of the three kinds of line in a list of lines: block headers, URL lines and
`Downloadable: yes` lines. -/
def lineCounts (ls : List (List Char)) : Nat × Nat × Nat :=
  (ls.countP isBlockHeader, ls.countP isURLLine, ls.countP isDownloadableYes)

/-- The number `K` of records with a non-empty `DumpURL`. -/
def downloadableCount (dumps : List HIBPResponse) : Nat :=
  dumps.countP (fun d => decide (d.DumpURL ≠ ""))

/-! ## net/url: query escaping -/

/-- The UTF-8 encoding of a character: the bytes a Go string holds for it. -/
def utf8EncodeChar (c : Char) : List Nat :=
  let v := c.toNat
  if v ≤ 0x7f then [v]
  else if v ≤ 0x7ff then [0xc0 + v / 0x40, 0x80 + v % 0x40]
  else if v ≤ 0xffff then [0xe0 + v / 0x1000, 0x80 + v / 0x40 % 0x40, 0x80 + v % 0x40]
  else [0xf0 + v / 0x40000, 0x80 + v / 0x1000 % 0x40, 0x80 + v / 0x40 % 0x40, 0x80 + v % 0x40]

/-- The bytes of a Go string. -/
def bytes (s : string) : List Nat := s.data.flatMap utf8EncodeChar

/-- Library function `shouldEscape(c, encodeQueryComponent)` of net/url: only the unreserved characters
(letters, digits, `-`, `_`, `.`, `~`) are left alone in a query component. -/
def shouldEscape (c : Nat) : Bool :=
  if ('a'.toNat ≤ c ∧ c ≤ 'z'.toNat) ∨ ('A'.toNat ≤ c ∧ c ≤ 'Z'.toNat)
      ∨ ('0'.toNat ≤ c ∧ c ≤ '9'.toNat) then false
  else if c = '-'.toNat ∨ c = '_'.toNat ∨ c = '.'.toNat ∨ c = '~'.toNat then false
  else true

/-- Table `upperhex` of net/url. -/
def upperhex (n : Nat) : Char := "0123456789ABCDEF".data.getD n '0'

/-- One byte through `escape(s, encodeQueryComponent)` of net/url. -/
def escapeByte (c : Nat) : List Char :=
  if c = ' '.toNat then ['+']
  else if shouldEscape c then ['%', upperhex (c / 16), upperhex (c % 16)]
  else [Char.ofNat c]

/-- Library function `url.QueryEscape`: every byte of the string through `escapeByte`. -/
def QueryEscape (s : string) : string := ⟨(bytes s).flatMap escapeByte⟩

/-- Library function `ishex` of net/url. -/
def ishex (c : Nat) : Bool :=
  ('0'.toNat ≤ c ∧ c ≤ '9'.toNat) ∨ ('a'.toNat ≤ c ∧ c ≤ 'f'.toNat)
    ∨ ('A'.toNat ≤ c ∧ c ≤ 'F'.toNat)

/-- Library function `unhex` of net/url. -/
def unhex (c : Nat) : Nat :=
  if '0'.toNat ≤ c ∧ c ≤ '9'.toNat then c - '0'.toNat
  else if 'a'.toNat ≤ c ∧ c ≤ 'f'.toNat then c - 'a'.toNat + 10
  else if 'A'.toNat ≤ c ∧ c ≤ 'F'.toNat then c - 'A'.toNat + 10
  else 0

/-- Library function `unescape(s, encodeQueryComponent)` of net/url on the bytes of `s`: `none` is an
`EscapeError`. -/
def unescape : List Nat → Option (List Nat)
  | [] => some []
  | c :: rest =>
    if c = '%'.toNat then
      match rest with
      | h :: l :: rest2 =>
        if ishex h && ishex l then (unescape rest2).map (fun t => (unhex h * 16 + unhex l) :: t)
        else none
      | _ => none
    else if c = '+'.toNat then (unescape rest).map (fun t => ' '.toNat :: t)
    else (unescape rest).map (fun t => c :: t)

/-- Library function `url.QueryUnescape`, giving the bytes of the decoded string. -/
def QueryUnescape (s : string) : Option (List Nat) := unescape (bytes s)

/-- Type `url.Values`: a map from key to the list of its values. -/
abbrev Values := List (string × List string)

/-- Library method `url.Values.Add`. -/
def Values.Add (v : Values) (key value : string) : Values :=
  if v.any (fun kv => kv.1 == key) then
    v.map (fun kv => if kv.1 == key then (kv.1, kv.2 ++ [value]) else kv)
  else v ++ [(key, [value])]

/-- Library method `url.Values.Encode`: `key=value` pairs, both escaped, sorted by key, joined by `&`. -/
def Values.Encode (v : Values) : string :=
  let keys := (v.map Prod.fst).insertionSort (fun a b => a.data ≤ b.data)
  "&".intercalate (keys.flatMap (fun k =>
    ((v.lookup k).getD []).map (fun value => QueryEscape k ++ "=" ++ QueryEscape value)))

/-! ## HTTPRequest and createHttpRequest -/

structure HTTPRequest where
  url : string
  headers : List (string × string)
  parameters : List (string × string)
deriving DecidableEq, Repr

/-- The parts of a `*http.Request` that `createHttpRequest` sets. -/
structure Request where
  Method : string
  URL : string
  RawQuery : string
  Header : List (string × string)
deriving DecidableEq, Repr

/-- Library method `http.Header.Set` (keys are kept as written). -/
def Header.Set (h : List (string × string)) (key value : string) : List (string × string) :=
  h.filter (fun kv => kv.1 != key) ++ [(key, value)]

/-- Function `createHttpRequest`.  Both URLs this program passes are a constant followed by
`QueryEscape` output: `http.NewRequest` accepts them, so its `log.Fatal` branch is not reached,
and as they carry no `?` the initial `req.URL.Query()` is empty. -/
def createHttpRequest (RequestObject : HTTPRequest) : Request :=
  let Header := RequestObject.headers.foldl (fun h kv => Header.Set h kv.1 kv.2) []
  let queryString : Values := []
  let queryString := RequestObject.parameters.foldl (fun q kv => Values.Add q kv.1 kv.2) queryString
  { Method := "GET", URL := RequestObject.url, RawQuery := Values.Encode queryString,
    Header := Header }

/-! ## The outside world -/

/-- A `*http.Response`, as far as this program reads it. -/
structure Response where
  Body : string
deriving DecidableEq, Repr

/-- The pair `(resp, err)` returned by `client.Do`: `resp = none` is the nil pointer and
`err = true` is `err != nil`. -/
structure DoResult where
  resp : Option Response
  err : Bool
deriving DecidableEq, Repr

/-- A parsed HTML node (`html.Node`); only elements have attributes and children. -/
inductive Node where
  | Element (Data : string) (Attr : List (string × string)) (Children : List Node)
  | Text (Data : string)
  | Comment (Data : string)
  | Doctype (Data : string)

/-- A parsed HTML document: the children of its document node. -/
structure Document where
  Children : List Node

/-- What the program observes of the world: the outcome of the `k`-th HTTP exchange
(`k` requests having been sent before), of `goquery.NewDocumentFromReader` on a response body
(`none` is a non-nil error) and of `json.Unmarshal` of a body into a `[]HIBPResponse`. -/
structure Env where
  Do : Nat → Request → DoResult
  NewDocumentFromReader : string → Option Document
  Unmarshal : string → List HIBPResponse

/-- What the program does to the world: the requests sent and the lines printed, in order. -/
structure Trace where
  requests : List Request
  stdout : List string
deriving DecidableEq, Repr

/-- How a call ends: it returns, it panics, or the process exits through `log.Fatal`. -/
inductive Outcome (α : Type) where
  | returned (a : α)
  | panicked
  | exited
deriving DecidableEq, Repr

/-! ## cascadia and goquery -/

/-- The compiled selectors that occur in this program. -/
inductive Sel where
  | tag (name : string)
  | id (val : string)
  | descendant (a d : Sel)

/-- Some strict ancestor satisfies `f`; `f` is given the ancestor and its own ancestors. -/
def anyAncestor (f : List Node → Node → Bool) : List Node → Bool
  | [] => false
  | p :: rest => f rest p || anyAncestor f rest

/-- Whether a selector matches node `n`, whose chain of element ancestors (nearest first) is
`anc`. -/
def Sel.Match : Sel → List Node → Node → Bool
  | .tag name, _, n =>
    match n with
    | .Element d _ _ => d == name
    | _ => false
  | .id v, _, n =>
    match n with
    | .Element _ attr _ => attr.any (fun a => a.1 == "id" && a.2 == v)
    | _ => false
  | .descendant a d, anc, n => d.Match anc n && anyAncestor a.Match anc

/-- A node of a selection, with the chain of its element ancestors (nearest first). -/
structure NodeRef where
  ancestors : List Node
  node : Node

mutual
/-- Library method `MatchAll` of cascadia: the nodes of the subtree of `n` (itself included) that match,
in document order. -/
def matchAllInto (s : Sel) (anc : List Node) : Node → List NodeRef
  | .Element d a cs =>
    (if s.Match anc (.Element d a cs) then [⟨anc, .Element d a cs⟩] else [])
      ++ matchAllChildren s (.Element d a cs :: anc) cs
  | n => if s.Match anc n then [⟨anc, n⟩] else []
/-- The matches in the subtrees of a list of siblings. -/
def matchAllChildren (s : Sel) (anc : List Node) : List Node → List NodeRef
  | [] => []
  | c :: cs => matchAllInto s anc c ++ matchAllChildren s anc cs
end

/-- Library type `goquery.Selection`: the matched nodes, in order. -/
structure Selection where
  Nodes : List NodeRef

/-- The result of `compileMatcher` on the two selector strings of this program; `none` stands
for goquery's matcher of an invalid selector, which matches nothing. -/
def compileMatcher (selector : string) : Option Sel :=
  if selector = "#myTable tr" then some (.descendant (.id "myTable") (.tag "tr"))
  else if selector = "a" then some (.tag "a")
  else none

/-- Whether a node is an element. -/
def Node.isElement : Node → Bool
  | .Element _ _ _ => true
  | _ => false

/-- Library function `findWithMatcher` of goquery on the children `cs` of one node: the matches within
the element children, in document order. -/
def findWithMatcher (m : Option Sel) (anc : List Node) (cs : List Node) : List NodeRef :=
  match m with
  | none => []
  | some s => cs.flatMap (fun c => if c.isElement then matchAllInto s anc c else [])

/-- Library method `Find` on the selection of a document (its single node is the document node). -/
def Document.Find (doc : Document) (selector : string) : Selection :=
  ⟨findWithMatcher (compileMatcher selector) [] doc.Children⟩

/-- The children of a node. -/
def Node.Children : Node → List Node
  | .Element _ _ cs => cs
  | _ => []

/-- The attributes of a node. -/
def Node.Attr : Node → List (string × string)
  | .Element _ a _ => a
  | _ => []

/-- Library method `Selection.Find` of goquery.  (The selections searched in this program hold at most one node,
so goquery's removal of duplicate results changes nothing.) -/
def Selection.Find (s : Selection) (selector : string) : Selection :=
  ⟨s.Nodes.flatMap (fun n =>
    findWithMatcher (compileMatcher selector) (n.node :: n.ancestors) n.node.Children)⟩

/-- Constant `goquery.ToEnd` (the largest `int`). -/
def ToEnd : Int := 2 ^ 63 - 1

/-- Library method `Selection.Slice` of goquery: the Go slice expression `s.Nodes[start:end]` after resolving
negative indices and `ToEnd`; `none` is the run-time panic of a slice expression whose bounds
are out of range. -/
def Selection.Slice (s : Selection) (start end_ : Int) : Option Selection :=
  let len : Int := s.Nodes.length
  let start := if start < 0 then start + len else start
  let end_ := if end_ = ToEnd then len else if end_ < 0 then end_ + len else end_
  if 0 ≤ start ∧ start ≤ end_ ∧ end_ ≤ len then
    some ⟨(s.Nodes.take end_.toNat).drop start.toNat⟩
  else none

/-- Library method `Selection.Eq` of goquery: the node at `index`, or the empty selection when
the index is out of range. -/
def Selection.Eq (s : Selection) (index : Int) : Option Selection :=
  let len : Int := s.Nodes.length
  let index := if index < 0 then index + len else index
  if index ≥ len ∨ index < 0 then some ⟨[]⟩
  else s.Slice index (index + 1)

/-- Library method `Selection.First` of goquery: `Eq(0)`. -/
def Selection.First (s : Selection) : Option Selection := s.Eq 0

/-- Library method `Selection.AttrOr` of goquery: the value of the first attribute named `attrName` of the first
node of the selection, or the default. -/
def Selection.AttrOr (s : Selection) (attrName defaultValue : string) : string :=
  match s.Nodes with
  | [] => defaultValue
  | n :: _ =>
    match n.node.Attr.find? (fun a => a.1 == attrName) with
    | none => defaultValue
    | some a => a.2

/-! ## checkPwned, _searchDumps, searchDumps, main -/

/-- Function `checkPwned`: the error of `client.Do` is tested before the response is touched. -/
def checkPwned (env : Env) (Target : PwnedTarget) (tr : Trace) : Outcome (PwnedTarget × Trace) :=
  let HttpReq : HTTPRequest :=
    { url := HibpBreachedApi ++ QueryEscape Target.Credentials,
      headers := [("User-Agent", VERSION), ("api-version", "2")],
      parameters := [("truncateResponse", "false")] }
  let req := createHttpRequest HttpReq
  let r := env.Do tr.requests.length req
  let tr : Trace := { tr with requests := tr.requests ++ [req] }
  if r.err then
    .returned (Target, { tr with stdout := tr.stdout ++ ["Errored whiled doing a request."] })
  else
    match r.resp with
    | none => .panicked
    | some resp =>
      let data := env.Unmarshal resp.Body
      .returned ({ Target with DumpsFound := data }, tr)

/-- Function `_searchDumps`: `defer resp.Body.Close()` comes before the test of the error, a
parse error ends the process through `log.Fatal`, and `Slice` may panic. -/
def _searchDumps (env : Env) (source : HIBPResponse) (tr : Trace) :
    Outcome (HIBPResponse × Trace) :=
  let HttpReq : HTTPRequest :=
    { url := DatabasesToday,
      headers := [("User-Agent", VERSION)],
      parameters := [("for", QueryEscape source.Name)] }
  let req := createHttpRequest HttpReq
  let r := env.Do tr.requests.length req
  let tr : Trace := { tr with requests := tr.requests ++ [req] }
  -- defer resp.Body.Close(): evaluating resp.Body dereferences resp
  match r.resp with
  | none => .panicked
  | some resp =>
    if r.err then
      .returned (source, { tr with stdout := tr.stdout ++ ["Errored whiled doing a request."] })
    else
      match env.NewDocumentFromReader resp.Body with
      | none => .exited
      | some doc =>
        match (doc.Find "#myTable tr").Slice 1 ToEnd with
        | none => .panicked
        | some rows =>
          match rows.First with
          | none => .panicked
          | some tRow =>
            let dumpUrl := (tRow.Find "a").AttrOr "href" ""
            .returned ({ source with DumpURL := dumpUrl }, tr)

/-- The `for index, _ := range Target.DumpsFound` loop of `searchDumps`, over the indices still
to visit; `&Target.DumpsFound[index]` is updated in place. -/
def searchDumps.loop (env : Env) :
    List Nat → List HIBPResponse → Trace → Outcome (List HIBPResponse × Trace)
  | [], dumps, tr => .returned (dumps, tr)
  | index :: rest, dumps, tr =>
    match dumps[index]? with
    | none => .panicked
    | some source =>
      match _searchDumps env source tr with
      | .returned (source', tr') => searchDumps.loop env rest (dumps.set index source') tr'
      | .panicked => .panicked
      | .exited => .exited

/-- Function `searchDumps`: one `_searchDumps` per index of `DumpsFound`, in order. -/
def searchDumps (env : Env) (Target : PwnedTarget) (tr : Trace) : Outcome (PwnedTarget × Trace) :=
  match searchDumps.loop env (List.range Target.DumpsFound.length) Target.DumpsFound tr with
  | .returned (dumps, tr') => .returned ({ Target with DumpsFound := dumps }, tr')
  | .panicked => .panicked
  | .exited => .exited

/-- The `for _, target := range runTargets` loop of `main`. -/
def main.loop (env : Env) (findDumps : Bool) : List string → Trace → Outcome Trace
  | [], tr => .returned tr
  | target :: rest, tr =>
    let currentTarget : PwnedTarget := ⟨target, []⟩
    match checkPwned env currentTarget tr with
    | .panicked => .panicked
    | .exited => .exited
    | .returned (currentTarget, tr) =>
      let r := if findDumps then searchDumps env currentTarget tr else .returned (currentTarget, tr)
      match r with
      | .panicked => .panicked
      | .exited => .exited
      | .returned (currentTarget, tr) =>
        main.loop env findDumps rest { tr with stdout := tr.stdout ++ [currentTarget.String] }

/-! ## Vocabulary for statements about the dump lookup -/

/-- The request `_searchDumps` sends for a record. -/
def dumpLookupRequest (source : HIBPResponse) : Request :=
  createHttpRequest
    { url := DatabasesToday,
      headers := [("User-Agent", VERSION)],
      parameters := [("for", QueryEscape source.Name)] }

/-- The request `checkPwned` sends for a target. -/
def breachLookupRequest (Target : PwnedTarget) : Request :=
  createHttpRequest
    { url := HibpBreachedApi ++ QueryEscape Target.Credentials,
      headers := [("User-Agent", VERSION), ("api-version", "2")],
      parameters := [("truncateResponse", "false")] }

mutual
/-- The nodes of the subtree of `n`, itself included, in document order. -/
def Node.subtree : Node → List Node
  | .Element d a cs => .Element d a cs :: Node.subtrees cs
  | n => [n]
/-- The nodes of the subtrees of a list of siblings, in document order. -/
def Node.subtrees : List Node → List Node
  | [] => []
  | c :: cs => Node.subtree c ++ Node.subtrees cs
end

/-- The nodes strictly inside `n`, in document order. -/
def Node.descendants (n : Node) : List Node := Node.subtrees n.Children

/-- Whether a node is an anchor element `<a>`. -/
def Node.isAnchor : Node → Bool
  | .Element d _ _ => d == "a"
  | _ => false

/-- The rows selected by `#myTable tr` in a document, in document order. -/
def tableRows (doc : Document) : List Node := (doc.Find "#myTable tr").Nodes.map NodeRef.node

/-- The `href` of the first anchor inside a row; empty when there is no anchor or the first
anchor has no `href`. -/
def firstAnchorHref (row : Node) : string :=
  match row.descendants.filter Node.isAnchor with
  | [] => ""
  | a :: _ =>
    match a.Attr.find? (fun kv => kv.1 == "href") with
    | none => ""
    | some kv => kv.2

/-- The dump URL a document yields: the `href` of the first anchor of the second selected row,
empty when there is no second row. -/
def expectedDumpURL (doc : Document) : string :=
  match (tableRows doc)[1]? with
  | none => ""
  | some row => firstAnchorHref row

/-! ## Sample documents and environments -/

/-- A table `myTable` with a header row and one data row whose anchor points to the dump. -/
def docHeaderAndDataRow : Document :=
  ⟨[.Element "html" [] [.Element "head" [] [],
    .Element "body" [] [.Element "table" [("id", "myTable")] [.Element "tbody" [] [
      .Element "tr" [] [.Element "th" [] [.Text "Name"]],
      .Element "tr" [] [.Element "td" []
        [.Element "a" [("href", "http://example.com/d.zip")] [.Text "d.zip"]]]]]]]]⟩

/-- A table `myTable` with only the header row. -/
def docHeaderOnly : Document :=
  ⟨[.Element "html" [] [.Element "head" [] [],
    .Element "body" [] [.Element "table" [("id", "myTable")] [.Element "tbody" [] [
      .Element "tr" [] [.Element "th" [] [.Text "Name"]]]]]]]⟩

/-- A document with no element `myTable`. -/
def docNoTable : Document :=
  ⟨[.Element "html" [] [.Element "head" [] [],
    .Element "body" [] [.Element "p" [] [.Text "No results"]]]]⟩

/-- A document whose element `myTable` holds no row. -/
def docEmptyTable : Document :=
  ⟨[.Element "html" [] [.Element "head" [] [],
    .Element "body" [] [.Element "table" [("id", "myTable")] []]]]⟩

/-- Every exchange succeeds and every body parses to `doc`. -/
def envServing (doc : Document) : Env :=
  { Do := fun _ _ => ⟨some ⟨"<html>"⟩, false⟩,
    NewDocumentFromReader := fun _ => some doc,
    Unmarshal := fun _ => [] }

/-- Every exchange fails with a network error: `client.Do` returns `(nil, err)`. -/
def envNetworkDown : Env :=
  { Do := fun _ _ => ⟨none, true⟩,
    NewDocumentFromReader := fun _ => none,
    Unmarshal := fun _ => [] }

/-- A target with two breach records, before the dump lookup. -/
def sampleTarget : PwnedTarget :=
  ⟨"a@b.c", [⟨"Adobe", "Adobe", "", true⟩, ⟨"Foo", "Foo Bar", "", false⟩]⟩

/-- The same target after a dump lookup in which every search page lists `d.zip` first. -/
def sampleTargetAfter : PwnedTarget :=
  ⟨"a@b.c", [⟨"Adobe", "Adobe", "http://example.com/d.zip", true⟩,
    ⟨"Foo", "Foo Bar", "http://example.com/d.zip", false⟩]⟩

/-- A target with one record whose Name holds line breaks and whose DumpURL is empty. -/
def lineBreakTarget : PwnedTarget :=
  ⟨"a", [⟨"x\n\tDump report #1\n\t\tURL: u\n\t\tDownloadable: yes", "X", "", false⟩]⟩

/-- A target with two records, one of them with a dump URL. -/
def reportTarget : PwnedTarget :=
  ⟨"a@b.c", [⟨"Adobe", "Adobe Inc", "", true⟩, ⟨"Foo", "Foo Bar", "http://u/d.zip", false⟩]⟩

set_option maxRecDepth 100000

/-! ## Rendering -/

theorem utf8ByteSize_go_pos (c : Char) (cs : List Char) : 0 < String.utf8ByteSize.go (c :: cs) := by
  have := Char.utf8Size_pos c
  simp only [String.utf8ByteSize.go]
  omega

theorem utf8ByteSize_pos_iff (s : String) : 0 < s.utf8ByteSize ↔ s ≠ "" := by
  rcases s with ⟨l⟩
  cases l with
  | nil => simp [String.utf8ByteSize, String.utf8ByteSize.go]
  | cons c cs =>
    have h := utf8ByteSize_go_pos c cs
    simp only [String.utf8ByteSize]
    constructor
    · intro _ hh
      have := congrArg String.data hh
      simp at this
    · intro _; exact h

theorem loop_eq (dumps : List HIBPResponse) (acc : string) (k : Nat) :
    dumps.foldl
      (fun (st : string × Nat) dump =>
        (st.1 ++ ("\tDump report #" ++ toString st.2 ++ "\n") ++ dump.String, st.2 + 1))
      (acc, k)
    = (acc ++ String.join ((dumps.enumFrom k).map
          (fun p => "\tDump report #" ++ toString p.1 ++ "\n" ++ p.2.String)),
       k + dumps.length) := by
  induction dumps generalizing acc k with
  | nil => simp [String.join]
  | cons d ds ih =>
    simp only [List.foldl_cons, List.enumFrom_cons, List.map_cons, List.length_cons]
    rw [ih]
    refine Prod.ext (String.ext ?_) ?_
    · simp [List.append_assoc]
    · simp; omega

/-- The report of a breached target, block by block. -/
theorem String_breached_eq (t : PwnedTarget) (h : t.DumpsFound ≠ []) :
    t.String =
      ("Report for " ++ t.Credentials ++ ": \n\tResults: Breached. \n\tFound "
        ++ toString t.DumpsFound.length ++ " dumps.\n")
      ++ String.join (t.DumpsFound.enum.map
          (fun p => "\tDump report #" ++ toString p.1 ++ "\n" ++ p.2.String)) := by
  have hlen : ¬ t.DumpsFound.length < 1 := by
    cases hd : t.DumpsFound with
    | nil => exact absurd hd h
    | cons d ds => simp
  simp only [PwnedTarget.String, hlen, if_false, PwnedTarget.String.loop, loop_eq, List.enum]

/-- The rendering of one record, piece by piece. -/
theorem HIBPResponse_String_eq (d : HIBPResponse) :
    d.String =
      "\t\tShort name: " ++ d.Name ++ "\n" ++ "\t\tLong name: " ++ d.Title ++ "\n"
      ++ "\t\tVerified: " ++ (if d.IsVerified = true then "yes" else "no") ++ "\n"
      ++ "\t\tDownloadable: " ++ (if d.DumpURL ≠ "" then "yes" else "no") ++ "\n"
      ++ (if d.DumpURL ≠ "" then "\t\tURL: " ++ d.DumpURL ++ "\n" else "") := by
  have e : (d.DumpURL.utf8ByteSize > 0) = (d.DumpURL ≠ "") :=
    propext (utf8ByteSize_pos_iff _)
  simp only [HIBPResponse.String, HIBPResponse.isVerified, HIBPResponse.isDownloadable, e]
  apply String.ext
  by_cases hu : d.DumpURL = "" <;> simp [hu, List.append_assoc]

/-! ## Lines of a report -/

theorem digitChar_ne_newline (k : Nat) (hk : k < 10) : Nat.digitChar k ≠ '\n' := by
  interval_cases k <;> decide

theorem toDigitsCore_no_newline (fuel n : Nat) (ds : List Char) (h : '\n' ∉ ds) :
    '\n' ∉ Nat.toDigitsCore 10 fuel n ds := by
  induction fuel generalizing n ds with
  | zero => simpa [Nat.toDigitsCore] using h
  | succ f ih =>
    have hd : '\n' ∉ Nat.digitChar (n % 10) :: ds := by
      simp only [List.mem_cons, not_or]
      exact ⟨fun e => digitChar_ne_newline _ (Nat.mod_lt _ (by decide)) e.symm, h⟩
    simp only [Nat.toDigitsCore]
    split
    · exact hd
    · exact ih _ _ hd

theorem toString_no_newline (n : Nat) : '\n' ∉ (toString n).data := by
  show '\n' ∉ (Nat.repr n).data
  simp only [Nat.repr, Nat.toDigits, List.asString]
  exact toDigitsCore_no_newline _ _ _ (by simp)

theorem splitLines_ne_nil (s : List Char) : splitLines s ≠ [] := by
  cases s with
  | nil => simp [splitLines]
  | cons c cs =>
    simp only [splitLines]
    split
    · simp
    · split <;> simp

theorem splitLines_cons_newline (b : List Char) : splitLines ('\n' :: b) = [] :: splitLines b := by
  simp [splitLines]

theorem splitLines_cons_other (c : Char) (b : List Char) (h : c ≠ '\n') :
    splitLines (c :: b) = consHead c (splitLines b) := by
  simp only [splitLines, h, if_false]
  cases splitLines b <;> rfl

theorem consHead_cons (c : Char) (l : List Char) (ls : List (List Char)) :
    consHead c (l :: ls) = (c :: l) :: ls := rfl

theorem appendHead_cons (a l : List Char) (ls : List (List Char)) :
    appendHead a (l :: ls) = (a ++ l) :: ls := rfl

theorem splitLines_append (a b : List Char) (h : '\n' ∉ a) :
    splitLines (a ++ b) = appendHead a (splitLines b) := by
  induction a with
  | nil =>
    cases hb : splitLines b with
    | nil => exact absurd hb (splitLines_ne_nil b)
    | cons l ls => simp [appendHead, hb]
  | cons c cs ih =>
    simp only [List.mem_cons, not_or] at h
    have hc : c ≠ '\n' := fun e => h.1 e.symm
    rw [List.cons_append, splitLines_cons_other _ _ hc, ih h.2]
    cases hb : splitLines b with
    | nil => exact absurd hb (splitLines_ne_nil b)
    | cons l ls => simp [appendHead, consHead]

theorem block_lines (i : Nat) (d : HIBPResponse) (rest : List Char)
    (hn : NoNewline d.Name) (ht : NoNewline d.Title) (hu : NoNewline d.DumpURL) :
    lineCounts (splitLines (("\tDump report #" ++ toString i ++ "\n" ++ d.String).data ++ rest))
      = ((lineCounts (splitLines rest)).1 + 1,
         (lineCounts (splitLines rest)).2.1 + (if d.DumpURL ≠ "" then 1 else 0),
         (lineCounts (splitLines rest)).2.2 + (if d.DumpURL ≠ "" then 1 else 0)) := by
  have hi := toString_no_newline i
  unfold NoNewline at hn ht hu
  rw [HIBPResponse_String_eq]
  by_cases hv : d.IsVerified = true <;> by_cases he : d.DumpURL = "" <;>
    simp [he, hv, List.append_assoc, splitLines_cons_newline, splitLines_cons_other,
      splitLines_append, consHead_cons, appendHead_cons, hn, ht, hi, hu, lineCounts,
      List.countP_cons, isBlockHeader, isURLLine, isDownloadableYes]

theorem blocks_lines (dumps : List HIBPResponse) (k : Nat) (rest : List Char)
    (hd : ∀ d ∈ dumps, NoNewline d.Name ∧ NoNewline d.Title ∧ NoNewline d.DumpURL) :
    lineCounts (splitLines ((String.join ((dumps.enumFrom k).map
        (fun p => "\tDump report #" ++ toString p.1 ++ "\n" ++ p.2.String))).data ++ rest))
      = ((lineCounts (splitLines rest)).1 + dumps.length,
         (lineCounts (splitLines rest)).2.1 + downloadableCount dumps,
         (lineCounts (splitLines rest)).2.2 + downloadableCount dumps) := by
  induction dumps generalizing k with
  | nil => simp [downloadableCount]
  | cons d ds ih =>
    have hd1 := hd d (List.mem_cons_self _ _)
    have hds : ∀ e ∈ ds, NoNewline e.Name ∧ NoNewline e.Title ∧ NoNewline e.DumpURL :=
      fun e he => hd e (List.mem_cons_of_mem _ he)
    have e1 : (String.join (((d :: ds).enumFrom k).map
        (fun p => "\tDump report #" ++ toString p.1 ++ "\n" ++ p.2.String))).data ++ rest
        = ("\tDump report #" ++ toString k ++ "\n" ++ d.String).data ++
          ((String.join ((ds.enumFrom (k + 1)).map
            (fun p => "\tDump report #" ++ toString p.1 ++ "\n" ++ p.2.String))).data ++ rest) := by
      simp [List.append_assoc]
    rw [e1, block_lines k d _ hd1.1 hd1.2.1 hd1.2.2, ih (k + 1) hds]
    by_cases he : d.DumpURL = "" <;>
      simp [downloadableCount, List.countP_cons, he] <;> omega

theorem header_lines (cred : string) (n : Nat) (rest : List Char) (hc : NoNewline cred) :
    lineCounts (splitLines (("Report for " ++ cred ++ ": \n\tResults: Breached. \n\tFound "
        ++ toString n ++ " dumps.\n").data ++ rest))
      = lineCounts (splitLines rest) := by
  have hN := toString_no_newline n
  unfold NoNewline at hc
  simp [List.append_assoc, splitLines_cons_newline, splitLines_cons_other, splitLines_append,
    consHead_cons, appendHead_cons, hc, hN, lineCounts, List.countP_cons, isBlockHeader,
    isURLLine, isDownloadableYes]

theorem report_lineCounts (t : PwnedTarget) (hc : NoNewline t.Credentials)
    (hd : ∀ d ∈ t.DumpsFound, NoNewline d.Name ∧ NoNewline d.Title ∧ NoNewline d.DumpURL) :
    lineCounts (reportLines t.String)
      = (t.DumpsFound.length, downloadableCount t.DumpsFound, downloadableCount t.DumpsFound) := by
  by_cases h : t.DumpsFound = []
  · unfold NoNewline at hc
    simp [PwnedTarget.String, h, reportLines, downloadableCount, splitLines_cons_newline,
      splitLines_cons_other, splitLines_append, consHead_cons, appendHead_cons, hc, lineCounts,
      List.countP_cons, isBlockHeader, isURLLine, isDownloadableYes, splitLines]
  · rw [String_breached_eq t h, reportLines, String.data_append, header_lines _ _ _ hc,
      ← List.append_nil (String.join _).data, List.enum, blocks_lines t.DumpsFound 0 [] hd]
    simp [lineCounts, splitLines, isBlockHeader, isURLLine, isDownloadableYes]

theorem enum_map_eq_ofFn {α β : Type} (l : List α) (f : Nat × α → β) :
    l.enum.map f = List.ofFn (fun i : Fin l.length => f (i.val, l.get i)) := by
  apply List.ext_getElem
  · simp
  · intro n h1 h2
    simp [List.enum]

/-- C1 (as stated, refuted): a target with one record (N = 1) whose DumpURL is empty (K = 0),
the record's Name holding line breaks, has a report with two block-header lines, one URL line
and one `Downloadable: yes` line; counted as substrings the three markers likewise occur
2, 1 and 1 times. -/
theorem C1_counts_fail_for_names_with_line_breaks :
    lineBreakTarget.DumpsFound.length = 1 ∧ downloadableCount lineBreakTarget.DumpsFound = 0 ∧
    lineCounts (reportLines lineBreakTarget.String) = (2, 1, 1) ∧
    countOcc "Dump report #".data lineBreakTarget.String.data = 2 ∧
    countOcc "URL: ".data lineBreakTarget.String.data = 1 ∧
    countOcc "Downloadable: yes".data lineBreakTarget.String.data = 1 := by
  decide

/-- C1 (amended): when neither the identifier nor any record's Name, Title or DumpURL contains a
newline, the report of a target with N records, K of them with a non-empty DumpURL, has exactly
N block-header lines (lines beginning `\tDump report #`), exactly K URL lines (lines beginning
`\t\tURL: `) and exactly K lines `\t\tDownloadable: yes`. -/
theorem C1_report_line_counts (t : PwnedTarget) (hc : NoNewline t.Credentials)
    (hd : ∀ d ∈ t.DumpsFound, NoNewline d.Name ∧ NoNewline d.Title ∧ NoNewline d.DumpURL) :
    (reportLines t.String).countP isBlockHeader = t.DumpsFound.length ∧
    (reportLines t.String).countP isURLLine = downloadableCount t.DumpsFound ∧
    (reportLines t.String).countP isDownloadableYes = downloadableCount t.DumpsFound := by
  have h := report_lineCounts t hc hd
  simp only [lineCounts, Prod.mk.injEq] at h
  exact h

/-- Witness for C1 (amended): a newline-free target with two records, one of them with a dump
URL, has 2 block-header lines, 1 URL line and 1 `Downloadable: yes` line. -/
theorem C1_report_line_counts_witness :
    NoNewline reportTarget.Credentials ∧
    (∀ d ∈ reportTarget.DumpsFound,
      NoNewline d.Name ∧ NoNewline d.Title ∧ NoNewline d.DumpURL) ∧
    (reportLines reportTarget.String).countP isBlockHeader = 2 ∧
    (reportLines reportTarget.String).countP isURLLine = 1 ∧
    (reportLines reportTarget.String).countP isDownloadableYes = 1 :=
  ⟨by decide, by decide, C1_report_line_counts reportTarget (by decide) (by decide)⟩

/-- C2: for a target with a non-empty breach list of length N, the report is the header
(identifier and count N) followed by, for i = 0, ..., N-1 in that order, the block header
`\tDump report #i` and the rendering of the i-th record, and nothing after the last block. -/
theorem C2_report_blocks_in_order (t : PwnedTarget) (h : t.DumpsFound ≠ []) :
    t.String =
      ("Report for " ++ t.Credentials ++ ": \n\tResults: Breached. \n\tFound "
        ++ toString t.DumpsFound.length ++ " dumps.\n")
      ++ String.join (List.ofFn (fun i : Fin t.DumpsFound.length =>
          "\tDump report #" ++ toString i.val ++ "\n" ++ (t.DumpsFound.get i).String)) := by
  rw [String_breached_eq t h, enum_map_eq_ofFn]

/-- Witness for C2: the report of a target with two records. -/
theorem C2_report_blocks_in_order_witness :
    reportTarget.DumpsFound ≠ [] ∧
    reportTarget.String =
      ("Report for " ++ reportTarget.Credentials ++ ": \n\tResults: Breached. \n\tFound "
        ++ toString reportTarget.DumpsFound.length ++ " dumps.\n")
      ++ String.join (List.ofFn (fun i : Fin reportTarget.DumpsFound.length =>
          "\tDump report #" ++ toString i.val ++ "\n" ++ (reportTarget.DumpsFound.get i).String)) :=
  ⟨by decide, C2_report_blocks_in_order reportTarget (by decide)⟩

/-- C3: the rendering of a record is the short-name line, the long-name line, `Verified: yes`
or `no` according to IsVerified, `Downloadable: yes` exactly when DumpURL is non-empty (`no`
otherwise), and then a `URL: <DumpURL>` line exactly when DumpURL is non-empty: the URL line
closes the rendering if and only if the record is reported as downloadable. -/
theorem C3_record_rendering (d : HIBPResponse) :
    d.String =
      "\t\tShort name: " ++ d.Name ++ "\n" ++ "\t\tLong name: " ++ d.Title ++ "\n"
      ++ "\t\tVerified: " ++ (if d.IsVerified = true then "yes" else "no") ++ "\n"
      ++ "\t\tDownloadable: " ++ (if d.DumpURL ≠ "" then "yes" else "no") ++ "\n"
      ++ (if d.DumpURL ≠ "" then "\t\tURL: " ++ d.DumpURL ++ "\n" else "")
    ∧ (d.isVerified = "yes" ↔ d.IsVerified = true)
    ∧ (d.isVerified = "no" ↔ d.IsVerified = false)
    ∧ (d.isDownloadable = "yes" ↔ d.DumpURL ≠ "")
    ∧ (d.isDownloadable = "no" ↔ d.DumpURL = "")
    ∧ (("\t\tURL: " ++ d.DumpURL ++ "\n").data <:+ d.String.data ↔ d.DumpURL ≠ "")
    ∧ (("\t\tURL: " ++ d.DumpURL ++ "\n").data <:+ d.String.data ↔ d.isDownloadable = "yes") := by
  have e : (d.DumpURL.utf8ByteSize > 0) = (d.DumpURL ≠ "") :=
    propext (utf8ByteSize_pos_iff _)
  have hdl : d.isDownloadable = "yes" ↔ d.DumpURL ≠ "" := by
    simp only [HIBPResponse.isDownloadable, e]
    by_cases hu : d.DumpURL = "" <;> simp [hu]
  have hdn : d.isDownloadable = "no" ↔ d.DumpURL = "" := by
    simp only [HIBPResponse.isDownloadable, e]
    by_cases hu : d.DumpURL = "" <;> simp [hu]
  have hsuf : ("\t\tURL: " ++ d.DumpURL ++ "\n").data <:+ d.String.data ↔ d.DumpURL ≠ "" := by
    rw [HIBPResponse_String_eq]
    by_cases hu : d.DumpURL = ""
    · simp only [hu, ne_eq, not_true_eq_false, if_false, iff_false]
      rw [← List.reverse_prefix]
      by_cases hv : d.IsVerified = true <;> simp [hv, List.reverse_append]
    · simp only [hu, ne_eq, not_false_eq_true, if_true, iff_true]
      refine ⟨("\t\tShort name: " ++ d.Name ++ "\n" ++ "\t\tLong name: " ++ d.Title ++ "\n"
        ++ "\t\tVerified: " ++ (if d.IsVerified = true then "yes" else "no") ++ "\n"
        ++ "\t\tDownloadable: " ++ "yes" ++ "\n").data, ?_⟩
      simp [List.append_assoc]
  refine ⟨HIBPResponse_String_eq d, ?_, ?_, hdl, hdn, hsuf, hsuf.trans hdl.symm⟩
  · cases hv : d.IsVerified <;> simp [HIBPResponse.isVerified, hv]
  · cases hv : d.IsVerified <;> simp [HIBPResponse.isVerified, hv]

/-- C4 (as stated, refuted): for the identifier `a`, which has no line break, the report of the
target with an empty breach list contains a newline character. -/
theorem C4_not_breached_report_has_newline :
    NoNewline "a" ∧ ¬ NoNewline (PwnedTarget.String ⟨"a", []⟩) := by
  decide

/-- C4 (amended): for a target whose breach list is empty the report is exactly
`Report for <identifier>: \n\tResults: Not breached.`; when the identifier has no line break
this is two lines of text, `Report for <identifier>: ` and `\tResults: Not breached.`. -/
theorem C4_not_breached_report (t : PwnedTarget) (h : t.DumpsFound = []) :
    t.String = "Report for " ++ t.Credentials ++ ": \n\tResults: Not breached."
    ∧ (NoNewline t.Credentials →
        reportLines t.String
          = [("Report for " ++ t.Credentials ++ ": ").data, "\tResults: Not breached.".data]) := by
  have e : t.String = "Report for " ++ t.Credentials ++ ": \n\tResults: Not breached." := by
    simp [PwnedTarget.String, h]
  refine ⟨e, fun hc => ?_⟩
  unfold NoNewline at hc
  rw [e]
  simp [reportLines, splitLines_cons_newline, splitLines_cons_other, splitLines_append,
    consHead_cons, appendHead_cons, hc, splitLines]

/-- Witness for C4 (amended): the report of `a@b.c` with an empty breach list. -/
theorem C4_not_breached_report_witness :
    (⟨"a@b.c", []⟩ : PwnedTarget).DumpsFound = [] ∧
    (PwnedTarget.String ⟨"a@b.c", []⟩ = "Report for a@b.c: \n\tResults: Not breached."
     ∧ (NoNewline "a@b.c" →
        reportLines (PwnedTarget.String ⟨"a@b.c", []⟩)
          = [("Report for " ++ "a@b.c" ++ ": ").data, "\tResults: Not breached.".data])) :=
  ⟨rfl, C4_not_breached_report ⟨"a@b.c", []⟩ rfl⟩

/-! ## The dump lookup -/

theorem Slice_one_ToEnd (s : Selection) (h : 1 ≤ s.Nodes.length) :
    s.Slice 1 ToEnd = some ⟨s.Nodes.drop 1⟩ := by
  have h1 : (1 : Int) ≤ (s.Nodes.length : Int) := by exact_mod_cast h
  simp [Selection.Slice, h1]

theorem Slice_one_ToEnd_empty (s : Selection) (h : s.Nodes = []) :
    s.Slice 1 ToEnd = none := by
  simp [Selection.Slice, h]

theorem First_eq (s : Selection) : s.First = some ⟨s.Nodes.take 1⟩ := by
  cases hn : s.Nodes with
  | nil => simp [Selection.First, Selection.Eq, hn]
  | cons n ns =>
    have : ¬ ((ns.length : Int) + 1 ≤ 0) := by omega
    simp [Selection.First, Selection.Eq, Selection.Slice, hn, ToEnd, this]

mutual
theorem matchAllInto_anchor (anc : List Node) :
    ∀ n : Node, (matchAllInto (.tag "a") anc n).map NodeRef.node
      = (Node.subtree n).filter Node.isAnchor
  | .Element d a cs => by
    have ih := matchAllChildren_anchor (.Element d a cs :: anc) cs
    by_cases hd : d = "a"
    · subst hd
      simp [matchAllInto, Node.subtree, Sel.Match, Node.isAnchor, ih]
    · simp [matchAllInto, Node.subtree, Sel.Match, Node.isAnchor, ih, hd]
  | .Text _ => by simp [matchAllInto, Node.subtree, Sel.Match, Node.isAnchor]
  | .Comment _ => by simp [matchAllInto, Node.subtree, Sel.Match, Node.isAnchor]
  | .Doctype _ => by simp [matchAllInto, Node.subtree, Sel.Match, Node.isAnchor]
theorem matchAllChildren_anchor (anc : List Node) :
    ∀ cs : List Node, (matchAllChildren (.tag "a") anc cs).map NodeRef.node
      = (Node.subtrees cs).filter Node.isAnchor
  | [] => by simp [matchAllChildren, Node.subtrees]
  | c :: cs => by
    simp [matchAllChildren, Node.subtrees, matchAllInto_anchor anc c,
      matchAllChildren_anchor anc cs]
end

theorem findWithMatcher_anchor (anc : List Node) (cs : List Node) :
    (findWithMatcher (compileMatcher "a") anc cs).map NodeRef.node
      = (Node.subtrees cs).filter Node.isAnchor := by
  have hc : compileMatcher "a" = some (.tag "a") := by rfl
  rw [hc]
  induction cs with
  | nil => simp [findWithMatcher, Node.subtrees]
  | cons c cs ih =>
    have ih2 : List.map NodeRef.node
        (cs.flatMap (fun c => if c.isElement = true then matchAllInto (.tag "a") anc c else []))
        = (Node.subtrees cs).filter Node.isAnchor := ih
    have key : ∀ c : Node, List.map NodeRef.node
        (if c.isElement = true then matchAllInto (.tag "a") anc c else [])
        = (Node.subtree c).filter Node.isAnchor := by
      intro c
      cases c with
      | Element d a ds =>
        have e1 : (Node.Element d a ds).isElement = true := rfl
        simp only [e1, if_true, matchAllInto_anchor]
      | Text _ => rfl
      | Comment _ => rfl
      | Doctype _ => rfl
    simp only [findWithMatcher, List.flatMap_cons, List.map_append, Node.subtrees,
      List.filter_append, key, ih2]

theorem AttrOr_eq (L : List NodeRef) (k dflt : string) :
    Selection.AttrOr ⟨L⟩ k dflt =
      match L.map NodeRef.node with
      | [] => dflt
      | a :: _ =>
        match a.Attr.find? (fun kv => kv.1 == k) with
        | none => dflt
        | some kv => kv.2 := by
  cases L <;> simp [Selection.AttrOr]

/-- What `_searchDumps` does on a fetched document whose row selection is not empty. -/
theorem searchDumps_on_document (env : Env) (source : HIBPResponse) (tr : Trace)
    (resp : Response) (doc : Document)
    (hdo : env.Do tr.requests.length (dumpLookupRequest source) = ⟨some resp, false⟩)
    (hdoc : env.NewDocumentFromReader resp.Body = some doc)
    (hrows : 1 ≤ (tableRows doc).length) :
    _searchDumps env source tr
      = .returned ({ source with DumpURL := expectedDumpURL doc },
          { tr with requests := tr.requests ++ [dumpLookupRequest source] }) := by
  have hlen : 1 ≤ (doc.Find "#myTable tr").Nodes.length := by
    simpa [tableRows] using hrows
  have hdo2 : env.Do tr.requests.length (createHttpRequest
      { url := DatabasesToday, headers := [("User-Agent", VERSION)],
        parameters := [("for", QueryEscape source.Name)] }) = ⟨some resp, false⟩ := hdo
  simp only [_searchDumps, hdo2, hdoc, Slice_one_ToEnd _ hlen, First_eq]
  simp only [Bool.false_eq_true, if_false, dumpLookupRequest]
  congr 2
  simp only [expectedDumpURL, tableRows]
  cases hr : (doc.Find "#myTable tr").Nodes with
  | nil => simp [hr] at hlen
  | cons r0 rs =>
    cases rs with
    | nil => simp [Selection.Find, Selection.AttrOr]
    | cons r1 rs2 =>
      simp only [List.drop_succ_cons, List.drop_zero, List.take_succ_cons, List.take_zero,
        Selection.Find, List.flatMap_cons, List.flatMap_nil, List.append_nil, AttrOr_eq,
        findWithMatcher_anchor, List.map_cons, List.getElem?_cons_succ, List.getElem?_cons_zero,
        firstAnchorHref, Node.descendants]

theorem searchDumps_one_frame (env : Env) (s s' : HIBPResponse) (tr tr' : Trace)
    (h : _searchDumps env s tr = .returned (s', tr')) :
    s'.Name = s.Name ∧ s'.Title = s.Title ∧ s'.IsVerified = s.IsVerified ∧
    tr'.requests = tr.requests ++ [dumpLookupRequest s] := by
  unfold _searchDumps at h
  simp only at h
  split at h
  · cases h
  · split at h
    · cases h
      exact ⟨rfl, rfl, rfl, rfl⟩
    · split at h
      · cases h
      · split at h
        · cases h
        · split at h
          · cases h
          · cases h
            exact ⟨rfl, rfl, rfl, rfl⟩

theorem map_set_of_eq {β : Type} (f : HIBPResponse → β) (dumps : List HIBPResponse) (i : Nat)
    (s s' : HIBPResponse) (hs : dumps[i]? = some s) (hf : f s' = f s) :
    (dumps.set i s').map f = dumps.map f := by
  induction dumps generalizing i with
  | nil => simp
  | cons d ds ih =>
    cases i with
    | zero =>
      simp only [List.getElem?_cons_zero, Option.some.injEq] at hs
      simp [hs, hf]
    | succ j =>
      simp only [List.getElem?_cons_succ] at hs
      simp [ih j hs]

theorem loop_frame (env : Env) (idxs : List Nat) :
    ∀ (dumps : List HIBPResponse) (tr : Trace) (dumps' : List HIBPResponse) (tr' : Trace),
    searchDumps.loop env idxs dumps tr = .returned (dumps', tr') →
    dumps'.length = dumps.length ∧
    dumps'.map HIBPResponse.Name = dumps.map HIBPResponse.Name ∧
    dumps'.map HIBPResponse.Title = dumps.map HIBPResponse.Title ∧
    dumps'.map HIBPResponse.IsVerified = dumps.map HIBPResponse.IsVerified ∧
    tr'.requests = tr.requests
      ++ idxs.filterMap (fun i => ((dumps.map dumpLookupRequest)[i]?)) := by
  induction idxs with
  | nil =>
    intro dumps tr dumps' tr' h
    simp only [searchDumps.loop, Outcome.returned.injEq, Prod.mk.injEq] at h
    obtain ⟨h1, h2⟩ := h
    subst h1; subst h2
    simp
  | cons index rest ih =>
    intro dumps tr dumps' tr' h
    simp only [searchDumps.loop] at h
    split at h
    · cases h
    · rename_i source hsrc
      split at h
      · rename_i source' tr1 hone
        obtain ⟨hn, ht, hv, hr⟩ := searchDumps_one_frame env source source' tr tr1 hone
        obtain ⟨i1, i2, i3, i4, i5⟩ := ih _ _ _ _ h
        have hq : dumpLookupRequest source' = dumpLookupRequest source := by
          simp [dumpLookupRequest, hn]
        rw [map_set_of_eq _ dumps index source source' hsrc hn] at i2
        rw [map_set_of_eq _ dumps index source source' hsrc ht] at i3
        rw [map_set_of_eq _ dumps index source source' hsrc hv] at i4
        rw [map_set_of_eq _ dumps index source source' hsrc hq] at i5
        refine ⟨by simpa using i1, i2, i3, i4, ?_⟩
        rw [i5, hr]
        simp [List.filterMap_cons, hsrc, List.append_assoc]
      · cases h
      · cases h

theorem filterMap_range_getElem? {β : Type} (l : List β) :
    (List.range l.length).filterMap (fun i => l[i]?) = l := by
  induction l with
  | nil => simp
  | cons x xs ih =>
    rw [List.length_cons, List.range_succ_eq_map, List.filterMap_cons]
    simp only [List.getElem?_cons_zero, List.filterMap_map]
    congr 1
    simpa [Function.comp_def] using ih

/-- What `searchDumps` leaves unchanged, and the requests it sends, whenever it returns. -/
theorem searchDumps_frame (env : Env) (t t' : PwnedTarget) (tr tr' : Trace)
    (h : searchDumps env t tr = .returned (t', tr')) :
    t'.Credentials = t.Credentials ∧
    t'.DumpsFound.length = t.DumpsFound.length ∧
    t'.DumpsFound.map HIBPResponse.Name = t.DumpsFound.map HIBPResponse.Name ∧
    t'.DumpsFound.map HIBPResponse.Title = t.DumpsFound.map HIBPResponse.Title ∧
    t'.DumpsFound.map HIBPResponse.IsVerified = t.DumpsFound.map HIBPResponse.IsVerified ∧
    tr'.requests = tr.requests ++ t.DumpsFound.map dumpLookupRequest := by
  unfold searchDumps at h
  split at h
  · rename_i dumps tr1 hl
    cases h
    obtain ⟨i1, i2, i3, i4, i5⟩ := loop_frame env _ _ _ _ _ hl
    refine ⟨rfl, i1, i2, i3, i4, ?_⟩
    rw [i5]
    have := filterMap_range_getElem? (t.DumpsFound.map dumpLookupRequest)
    rw [List.length_map] at this
    rw [this]
  · cases h
  · cases h

/-! ## Claims about the network paths -/

/-- C5: on a successfully fetched document whose selection `#myTable tr` has at least one row,
`_searchDumps` returns (no panic, no exit) with the record's DumpURL set to the href of the
first anchor inside the second selected row, and to the empty string when there is no second
row, no anchor in it, or that first anchor has no href; nothing else of the record changes. -/
theorem C5_searchDumps_sets_first_data_row_link (env : Env) (source : HIBPResponse) (tr : Trace)
    (resp : Response) (doc : Document)
    (hdo : env.Do tr.requests.length (dumpLookupRequest source) = ⟨some resp, false⟩)
    (hdoc : env.NewDocumentFromReader resp.Body = some doc)
    (hrows : 1 ≤ (tableRows doc).length) :
    _searchDumps env source tr
      = .returned ({ source with DumpURL := expectedDumpURL doc },
          { tr with requests := tr.requests ++ [dumpLookupRequest source] })
    ∧ ((tableRows doc).length = 1 → expectedDumpURL doc = "")
    ∧ (∀ row, (tableRows doc)[1]? = some row →
        row.descendants.filter Node.isAnchor = [] → expectedDumpURL doc = "")
    ∧ (∀ row a rest, (tableRows doc)[1]? = some row →
        row.descendants.filter Node.isAnchor = a :: rest →
        expectedDumpURL doc = ((a.Attr.find? (fun kv => kv.1 == "href")).map Prod.snd).getD "") := by
  refine ⟨searchDumps_on_document env source tr resp doc hdo hdoc hrows, ?_, ?_, ?_⟩
  · intro h1
    have : (tableRows doc)[1]? = none := by
      rw [List.getElem?_eq_none_iff]; omega
    simp [expectedDumpURL, this]
  · intro row h1 h2
    simp [expectedDumpURL, h1, firstAnchorHref, h2]
  · intro row a rest h1 h2
    simp only [expectedDumpURL, h1, firstAnchorHref, h2]
    cases List.find? (fun kv => kv.1 == "href") a.Attr <;> rfl

/-- Witness for C5: a header row plus one data row whose anchor has
href `http://example.com/d.zip` gives exactly that string, and a table with only the header row
gives the empty string. -/
theorem C5_searchDumps_sets_first_data_row_link_witness :
    (envServing docHeaderAndDataRow).Do (⟨[], []⟩ : Trace).requests.length
        (dumpLookupRequest ⟨"Adobe", "Adobe", "", true⟩) = ⟨some ⟨"<html>"⟩, false⟩
    ∧ (envServing docHeaderAndDataRow).NewDocumentFromReader (⟨"<html>"⟩ : Response).Body
        = some docHeaderAndDataRow
    ∧ 1 ≤ (tableRows docHeaderAndDataRow).length
    ∧ _searchDumps (envServing docHeaderAndDataRow) ⟨"Adobe", "Adobe", "", true⟩ ⟨[], []⟩
        = .returned (⟨"Adobe", "Adobe", "http://example.com/d.zip", true⟩,
            ⟨[dumpLookupRequest ⟨"Adobe", "Adobe", "", true⟩], []⟩)
    ∧ _searchDumps (envServing docHeaderOnly) ⟨"Adobe", "Adobe", "", true⟩ ⟨[], []⟩
        = .returned (⟨"Adobe", "Adobe", "", true⟩,
            ⟨[dumpLookupRequest ⟨"Adobe", "Adobe", "", true⟩], []⟩) :=
  ⟨rfl, rfl, by decide,
   (C5_searchDumps_sets_first_data_row_link (envServing docHeaderAndDataRow)
      ⟨"Adobe", "Adobe", "", true⟩ ⟨[], []⟩ ⟨"<html>"⟩ docHeaderAndDataRow rfl rfl (by decide)).1,
   (C5_searchDumps_sets_first_data_row_link (envServing docHeaderOnly)
      ⟨"Adobe", "Adobe", "", true⟩ ⟨[], []⟩ ⟨"<html>"⟩ docHeaderOnly rfl rfl (by decide)).1⟩

/-- C6 (the code at the failing input): when the fetched document has no element `myTable`, or
its `myTable` holds no row, the row selection is empty and `_searchDumps` panics in
`Slice(1, goquery.ToEnd)` (the slice expression `s.Nodes[1:0]`) instead of returning with an
empty DumpURL. -/
theorem C6_searchDumps_panics_on_empty_row_selection :
    (tableRows docNoTable = [] ∧ tableRows docEmptyTable = []) ∧
    (∀ (source : HIBPResponse) (tr : Trace),
      _searchDumps (envServing docNoTable) source tr = .panicked) ∧
    (∀ (source : HIBPResponse) (tr : Trace),
      _searchDumps (envServing docEmptyTable) source tr = .panicked) := by
  refine ⟨⟨rfl, rfl⟩, ?_, ?_⟩
  · intro source tr
    have h : (docNoTable.Find "#myTable tr").Nodes = [] := rfl
    simp [_searchDumps, envServing, Slice_one_ToEnd_empty _ h]
  · intro source tr
    have h : (docEmptyTable.Find "#myTable tr").Nodes = [] := rfl
    simp [_searchDumps, envServing, Slice_one_ToEnd_empty _ h]

/-- C7 (the code at the failing input): when `client.Do` returns a nil response and a non-nil
error, `_searchDumps` panics at `defer resp.Body.Close()`, before the error is looked at; a
`searchDumps` over a non-empty breach list therefore panics at its first record and visits no
further record. -/
theorem C7_searchDumps_panics_on_network_error :
    (∀ (source : HIBPResponse) (tr : Trace),
      _searchDumps envNetworkDown source tr = .panicked) ∧
    (∀ (cred : string) (d : HIBPResponse) (ds : List HIBPResponse) (tr : Trace),
      searchDumps envNetworkDown ⟨cred, d :: ds⟩ tr = .panicked) := by
  have h1 : ∀ (source : HIBPResponse) (tr : Trace),
      _searchDumps envNetworkDown source tr = .panicked := by
    intro source tr
    simp [_searchDumps, envNetworkDown]
  refine ⟨h1, ?_⟩
  intro cred d ds tr
  simp [searchDumps, List.range_succ_eq_map, searchDumps.loop, h1]

/-- C8: when the HTTP GET of `checkPwned` fails with a network error, `checkPwned` returns
(no panic, no exit) with the Target unchanged, having printed the diagnostic; a Target created
with an empty breach list then renders as the not-breached report, which is what the loop of
`main` prints for it before going on to the remaining targets. -/
theorem C8_checkPwned_network_error (env : Env) (Target : PwnedTarget) (tr : Trace)
    (herr : (env.Do tr.requests.length (breachLookupRequest Target)).err = true) :
    checkPwned env Target tr
      = .returned (Target, ⟨tr.requests ++ [breachLookupRequest Target],
          tr.stdout ++ ["Errored whiled doing a request."]⟩)
    ∧ (Target.DumpsFound = [] →
        Target.String = "Report for " ++ Target.Credentials ++ ": \n\tResults: Not breached."
        ∧ ∀ (findDumps : Bool) (rest : List string),
          main.loop env findDumps (Target.Credentials :: rest) tr
            = main.loop env findDumps rest ⟨tr.requests ++ [breachLookupRequest Target],
                tr.stdout ++ ["Errored whiled doing a request.",
                  "Report for " ++ Target.Credentials ++ ": \n\tResults: Not breached."]⟩) := by
  have herr2 : (env.Do tr.requests.length (createHttpRequest
      { url := HibpBreachedApi ++ QueryEscape Target.Credentials,
        headers := [("User-Agent", VERSION), ("api-version", "2")],
        parameters := [("truncateResponse", "false")] })).err = true := herr
  have hc : checkPwned env Target tr
      = .returned (Target, ⟨tr.requests ++ [breachLookupRequest Target],
          tr.stdout ++ ["Errored whiled doing a request."]⟩) := by
    simp only [checkPwned, herr2, if_true, breachLookupRequest]
  refine ⟨hc, fun hnil => ?_⟩
  have hs : Target.String = "Report for " ++ Target.Credentials ++ ": \n\tResults: Not breached." := by
    simp [PwnedTarget.String, hnil]
  refine ⟨hs, fun findDumps rest => ?_⟩
  have ht : Target = ⟨Target.Credentials, []⟩ := by
    cases Target; simp_all
  rw [main.loop, ← ht, hc]
  cases findDumps
  · simp [hs]
  · have hsd : ∀ tr1, searchDumps env Target tr1 = .returned (Target, tr1) := by
      intro tr1
      simp [searchDumps, hnil, searchDumps.loop]
      exact ht.symm
    simp [hsd, hs]

/-- Witness for C8: the breach lookup of `a@b.c` with the network down. -/
theorem C8_checkPwned_network_error_witness :
    (envNetworkDown.Do (⟨[], []⟩ : Trace).requests.length
        (breachLookupRequest ⟨"a@b.c", []⟩)).err = true
    ∧ checkPwned envNetworkDown ⟨"a@b.c", []⟩ ⟨[], []⟩
      = .returned (⟨"a@b.c", []⟩, ⟨[breachLookupRequest ⟨"a@b.c", []⟩],
          ["Errored whiled doing a request."]⟩) :=
  ⟨rfl, (C8_checkPwned_network_error envNetworkDown ⟨"a@b.c", []⟩ ⟨[], []⟩ rfl).1⟩

/-! ## Query escaping -/

theorem dumpLookupRequest_RawQuery (source : HIBPResponse) :
    (dumpLookupRequest source).RawQuery = "for=" ++ QueryEscape (QueryEscape source.Name) := by
  have hfor : QueryEscape "for" = "for" := by decide
  simp [dumpLookupRequest, createHttpRequest, Values.Add, Values.Encode, String.intercalate,
    String.intercalate.go, hfor]

theorem utf8EncodeChar_lt (c : Char) : ∀ b ∈ utf8EncodeChar c, b < 256 := by
  have hv : c.toNat < 0x110000 := by
    have := c.valid
    simp only [UInt32.isValidChar, Nat.isValidChar] at this
    show c.val.toNat < 0x110000
    omega
  intro b hb
  simp only [utf8EncodeChar] at hb
  split_ifs at hb <;> simp at hb <;> omega

theorem bytes_lt (s : string) : ∀ b ∈ bytes s, b < 256 := by
  intro b hb
  simp only [bytes, List.mem_flatMap] at hb
  obtain ⟨c, _, hc⟩ := hb
  exact utf8EncodeChar_lt c b hc

theorem escapeByte_ascii (b : Nat) (hb : b < 256) : ∀ c ∈ escapeByte b, c.toNat ≤ 0x7f := by
  interval_cases b <;> decide

theorem unescape_cons_other (c : Nat) (rest : List Nat) (h1 : c ≠ '%'.toNat)
    (h2 : c ≠ '+'.toNat) : unescape (c :: rest) = (unescape rest).map (fun t => c :: t) := by
  have h1n : ¬ c = 37 := h1
  have h2n : ¬ c = 43 := h2
  rcases rest with _ | ⟨h, _ | ⟨l, rest2⟩⟩ <;> simp [unescape, h1n, h2n]

theorem unescape_plus (rest : List Nat) :
    unescape ('+'.toNat :: rest) = (unescape rest).map (fun t => ' '.toNat :: t) := by
  rcases rest with _ | ⟨h, _ | ⟨l, rest2⟩⟩ <;> simp [unescape]

theorem unescape_escapeByte (b : Nat) (hb : b < 256) (rest : List Nat) :
    unescape ((escapeByte b).map Char.toNat ++ rest) = (unescape rest).map (fun t => b :: t) := by
  interval_cases b <;>
    first
    | rfl
    | exact unescape_plus rest
    | exact unescape_cons_other _ rest (by decide) (by decide)

theorem bytes_of_ascii (l : List Char) (h : ∀ c ∈ l, c.toNat ≤ 0x7f) :
    bytes ⟨l⟩ = l.map Char.toNat := by
  induction l with
  | nil => rfl
  | cons c cs ih =>
    have hc := h c (List.mem_cons_self _ _)
    have ih2 := ih (fun c hc => h c (List.mem_cons_of_mem _ hc))
    simp only [bytes] at ih2 ⊢
    simp [utf8EncodeChar, hc, ih2]

theorem unescape_escape_bytes (bs : List Nat) (h : ∀ b ∈ bs, b < 256) :
    unescape ((bs.flatMap escapeByte).map Char.toNat) = some bs := by
  induction bs with
  | nil => rfl
  | cons b bs ih =>
    have hb := h b (List.mem_cons_self _ _)
    have ih2 := ih (fun c hc => h c (List.mem_cons_of_mem _ hc))
    rw [List.flatMap_cons, List.map_append, unescape_escapeByte b hb, ih2]
    rfl

/-- Decoding undoes one round of `QueryEscape`. -/
theorem QueryUnescape_QueryEscape (s : string) : QueryUnescape (QueryEscape s) = some (bytes s) := by
  have hs := bytes_lt s
  have hascii : ∀ c ∈ (bytes s).flatMap escapeByte, c.toNat ≤ 0x7f := by
    intro c hc
    rw [List.mem_flatMap] at hc
    obtain ⟨b, hb, hcb⟩ := hc
    exact escapeByte_ascii b (hs b hb) c hcb
  rw [QueryUnescape, QueryEscape, bytes_of_ascii _ hascii, unescape_escape_bytes _ hs]

/-- C9 (the code at the failing input): the raw query of the request `_searchDumps` builds is
`for=` followed by the short name escaped twice, once by the explicit `url.QueryEscape` and once
more by `Values.Encode` in `createHttpRequest`; URL-decoding the value of `for` gives the
once-escaped name instead of the name.  For the name `a b` the query is `for=a%2Bb`, which
decodes to `a+b`. -/
theorem C9_for_parameter_is_escaped_twice :
    (∀ source : HIBPResponse,
      (dumpLookupRequest source).RawQuery = "for=" ++ QueryEscape (QueryEscape source.Name)) ∧
    (∀ source : HIBPResponse,
      QueryUnescape (QueryEscape (QueryEscape source.Name))
        = some (bytes (QueryEscape source.Name))) ∧
    (dumpLookupRequest ⟨"a b", "", "", false⟩).RawQuery = "for=a%2Bb" ∧
    QueryUnescape "a%2Bb" = some (bytes "a+b") ∧
    bytes "a+b" ≠ bytes "a b" :=
  ⟨dumpLookupRequest_RawQuery, fun source => QueryUnescape_QueryEscape _, by decide, by decide,
    by decide⟩

/-- C10: whenever `searchDumps` returns, it has sent exactly one lookup request per record of
DumpsFound, in list order, and has changed nothing but DumpURL fields: Credentials, the length
of DumpsFound, and the Name, Title and IsVerified of the record at every position are as
before. -/
theorem C10_searchDumps_changes_only_DumpURL (env : Env) (t t' : PwnedTarget) (tr tr' : Trace)
    (h : searchDumps env t tr = .returned (t', tr')) :
    t'.Credentials = t.Credentials ∧
    t'.DumpsFound.length = t.DumpsFound.length ∧
    t'.DumpsFound.map HIBPResponse.Name = t.DumpsFound.map HIBPResponse.Name ∧
    t'.DumpsFound.map HIBPResponse.Title = t.DumpsFound.map HIBPResponse.Title ∧
    t'.DumpsFound.map HIBPResponse.IsVerified = t.DumpsFound.map HIBPResponse.IsVerified ∧
    tr'.requests = tr.requests ++ t.DumpsFound.map dumpLookupRequest :=
  searchDumps_frame env t t' tr tr' h

/-- Witness for C10: a dump lookup over two records that returns. -/
theorem C10_searchDumps_changes_only_DumpURL_witness :
    searchDumps (envServing docHeaderAndDataRow) sampleTarget ⟨[], []⟩
      = .returned (sampleTargetAfter, ⟨sampleTarget.DumpsFound.map dumpLookupRequest, []⟩)
    ∧ (sampleTargetAfter.Credentials = sampleTarget.Credentials ∧
       sampleTargetAfter.DumpsFound.length = sampleTarget.DumpsFound.length ∧
       sampleTargetAfter.DumpsFound.map HIBPResponse.Name
         = sampleTarget.DumpsFound.map HIBPResponse.Name ∧
       sampleTargetAfter.DumpsFound.map HIBPResponse.Title
         = sampleTarget.DumpsFound.map HIBPResponse.Title ∧
       sampleTargetAfter.DumpsFound.map HIBPResponse.IsVerified
         = sampleTarget.DumpsFound.map HIBPResponse.IsVerified ∧
       (⟨sampleTarget.DumpsFound.map dumpLookupRequest, []⟩ : Trace).requests
         = (⟨[], []⟩ : Trace).requests ++ sampleTarget.DumpsFound.map dumpLookupRequest) :=
  ⟨by decide,
   C10_searchDumps_changes_only_DumpURL (envServing docHeaderAndDataRow) sampleTarget
     sampleTargetAfter ⟨[], []⟩ ⟨sampleTarget.DumpsFound.map dumpLookupRequest, []⟩ (by decide)⟩

end PwnedFinder
